import Mathlib

/-!
Verification of the calculator expression engine (src/logic.c) against its
natural-language specification.

Shallow embedding notes:
* C `float` values are modelled as exact rationals (`ℚ`); the arithmetic the
  claims exercise (small decimal parsing, precedence evaluation on small
  operands) is exact in both models.
* The global error state (`calculator_error`, `error_message`) is the
  `ErrState` structure, threaded explicitly through every function that
  reads or writes it in the C source.
* The token arrays `expr_type` / `expr_data` / `expr_len` are modelled as a
  single `List Token`; `expr_len` is the list length.
* The display-history string (`expression_str`) and all LCD output are pure
  presentation (never read back into the logic) and are not modelled; no
  claim mentions them.
-/

namespace Calc

/-- `MAX_TOKENS` from logic.h: capacity of the token buffer and of the
evaluator's two internal stacks. -/
def MAX_TOKENS : Nat := 50

/-- `ERROR_MSG_LEN` from logic.h: 16 displayable characters plus the NUL. -/
def ERROR_MSG_LEN : Nat := 17

/-- `LCD_LINE_LEN` from logic.h. -/
def LCD_LINE_LEN : Nat := 16

/-- `FLOAT_EPSILON` (1e-7f) from logic.c, used for the division-by-zero
check. -/
def FLOAT_EPSILON : ℚ := 1 / 10 ^ 7

/-- The error messages used by logic.c. -/
def msgSyntax : String := "Err: Syntax"

def msgDivZero : String := "Err: Div Zero"

def msgExprLong : String := "Err: Expr Long"

def msgNumLen : String := "Err: Num Len"

def msgStack : String := "Err: Stack"

/-- A token of the expression buffer: `expr_type[i] = 'N'` with the value in
`expr_data[i]`, or `expr_type[i] = 'O'` with the operator character stored
(as a float) in `expr_data[i]`. -/
inductive Token where
  | num (v : ℚ)
  | op (c : Char)
deriving DecidableEq, Repr

/-- The global error state: `calculator_error` and `error_message`. -/
structure ErrState where
  calculator_error : Bool
  error_message : String
deriving DecidableEq, Repr

/-- `set_error` from logic.c: no-op when an error is already active,
otherwise marks the error active and stores the message truncated by
`strncpy(error_message, message, ERROR_MSG_LEN - 1)` plus a forced NUL,
i.e. truncated to 16 characters. -/
def set_error (message : String) (st : ErrState) : ErrState :=
  if st.calculator_error then st
  else ⟨true, message.take (ERROR_MSG_LEN - 1)⟩

/-- `get_precedence` from logic.c. -/
def get_precedence (op : Char) : Nat :=
  if op = '+' ∨ op = '-' then 1
  else if op = '*' ∨ op = '/' then 2
  else 0

/-- `execute_apply_operator` from logic.c: applies a binary operator,
raising "Err: Div Zero" when the divisor is within `FLOAT_EPSILON` of zero
and "Err: Syntax" on an unknown operator character. -/
def execute_apply_operator (op : Char) (a b : ℚ) (st : ErrState) : ℚ × ErrState :=
  if st.calculator_error then (0, st)
  else if op = '+' then (a + b, st)
  else if op = '-' then (a - b, st)
  else if op = '*' then (a * b, st)
  else if op = '/' then
    if |b| < FLOAT_EPSILON then (0, set_error msgDivZero st)
    else (a / b, st)
  else (0, set_error msgSyntax st)

/-- `push_operand_to_expr` from logic.c: appends a `Number` token unless an
error is active or the buffer is full (`expr_len >= MAX_TOKENS`, which sets
"Err: Expr Long"). -/
def push_operand_to_expr (n : ℚ) (expr : List Token) (st : ErrState) :
    List Token × ErrState :=
  if st.calculator_error then (expr, st)
  else if MAX_TOKENS ≤ expr.length then (expr, set_error msgExprLong st)
  else (expr ++ [Token.num n], st)

/-- `push_operator_to_expr` from logic.c: appends an `Operator` token with
the same guards as `push_operand_to_expr`.  (Its call to
`add_to_expression_string` only touches the display-history string.) -/
def push_operator_to_expr (c : Char) (expr : List Token) (st : ErrState) :
    List Token × ErrState :=
  if st.calculator_error then (expr, st)
  else if MAX_TOKENS ≤ expr.length then (expr, set_error msgExprLong st)
  else (expr ++ [Token.op c], st)

/-- Numeric value of a digit character, as in `current_num_str[i] - '0'`. -/
def digitVal (c : Char) : ℚ := ((c.toNat - '0'.toNat : Nat) : ℚ)

/-- The character scan loop of `parse_current_input_number` (logic.c lines
354-374), with the final sign application of line 375 folded into the
end-of-input case.  Arguments: remaining characters, `result`,
`decimal_multiplier`, `in_decimal_part`, error state. -/
def parse_loop (neg : Bool) : List Char → ℚ → ℚ → Bool → ErrState → ℚ × ErrState
  | [], res, _, _, st => (if neg then -res else res, st)
  | c :: cs, res, mult, inDec, st =>
    if c = '.' then
      if inDec then (0, set_error msgSyntax st)
      else parse_loop neg cs res mult true st
    else if '0' ≤ c ∧ c ≤ '9' then
      if inDec then parse_loop neg cs (res + digitVal c * mult) (mult * (1 / 10)) inDec st
      else parse_loop neg cs (res * 10 + digitVal c) mult inDec st
    else (0, set_error msgSyntax st)

/-- `parse_current_input_number` from logic.c.  The pending-entry buffer
`current_num_str` (with `current_num_index` = its length) is the char list
`s`. -/
def parse_current_input_number (s : List Char) (st : ErrState) : ℚ × ErrState :=
  if s.length = 0 then (0, st)
  else if s.length = 1 ∧ s.headI = '-' then (0, set_error msgSyntax st)
  else if s.length = 1 ∧ s.headI = '.' then (0, set_error msgSyntax st)
  else if s.headI = '-' then parse_loop true s.tail 0 (1 / 10) false st
  else parse_loop false s 0 (1 / 10) false st

/-- The inner `while` loop of `evaluate_full_expression` (logic.c lines
268-280): while the operator stack is non-empty and its top has precedence
`≥` the incoming operator's, pop one operator and two values, apply, and
push the result back.  `Except.error` is an early `return 0.0f` from the C
function (underflow, or an error raised by `execute_apply_operator`). -/
def popApplyWhile (cur : Char) :
    List ℚ → List Char → ErrState → Except (ℚ × ErrState) (List ℚ × List Char × ErrState)
  | vs, [], st => .ok (vs, [], st)
  | vs, top :: ops, st =>
    if get_precedence top ≥ get_precedence cur then
      match vs with
      | b :: a :: vs' =>
        let r := execute_apply_operator top a b st
        if r.2.calculator_error then .error (0, r.2)
        else popApplyWhile cur (r.1 :: vs') ops r.2
      | _ => .error (0, set_error msgSyntax st)
    else .ok (vs, top :: ops, st)

/-- The final drain loop of `evaluate_full_expression` (logic.c lines
291-310), including the closing `val_top != 0` check. -/
def drainRemaining : List ℚ → List Char → ErrState → ℚ × ErrState
  | vs, [], st =>
    match vs with
    | [v] => (v, st)
    | _ => (0, set_error msgSyntax st)
  | vs, top :: ops, st =>
    match vs with
    | b :: a :: vs' =>
      let r := execute_apply_operator top a b st
      if r.2.calculator_error then (0, r.2)
      else drainRemaining (r.1 :: vs') ops r.2
    | _ => (0, set_error msgSyntax st)

/-- The main token scan of `evaluate_full_expression` (logic.c lines
258-288), carrying the value stack and the operator stack, followed by the
drain.  The stack-overflow guards (`val_top >= MAX_TOKENS - 1`,
`op_top >= MAX_TOKENS - 1`) are the `length ≥ MAX_TOKENS` checks. -/
def evalTokens : List Token → List ℚ → List Char → ErrState → ℚ × ErrState
  | [], vs, ops, st => drainRemaining vs ops st
  | Token.num v :: rest, vs, ops, st =>
    if vs.length ≥ MAX_TOKENS then (0, set_error msgStack st)
    else evalTokens rest (v :: vs) ops st
  | Token.op c :: rest, vs, ops, st =>
    match popApplyWhile c vs ops st with
    | .error r => r
    | .ok (vs', ops', st') =>
      if ops'.length ≥ MAX_TOKENS then (0, set_error msgStack st')
      else evalTokens rest vs' (c :: ops') st'

/-- `expr_type[expr_len - 1] == 'O'`: the last token is an operator. -/
def lastIsOp : List Token → Bool
  | [] => false
  | [Token.op _] => true
  | [Token.num _] => false
  | _ :: t :: rest => lastIsOp (t :: rest)

/-- The globals `evaluate_full_expression` touches: the token buffer and
the error state. -/
structure CalcState where
  expr : List Token
  err : ErrState
deriving DecidableEq, Repr

/-- `evaluate_full_expression` from logic.c, as a function of the global
state it reads.  The C function writes none of `expr_type` / `expr_data` /
`expr_len`; accordingly the returned state carries the input buffer and
only the error state is threaded through the evaluation. -/
def evaluate_full_expression (s : CalcState) : ℚ × CalcState :=
  let out : ℚ × ErrState :=
    if s.err.calculator_error then (0, s.err)
    else if s.expr.length = 0 then (0, s.err)
    else if lastIsOp s.expr then (0, set_error msgSyntax s.err)
    else
      match s.expr with
      | [Token.num v] => (v, s.err)
      | e => evalTokens e [] [] s.err
  (out.1, { expr := s.expr, err := out.2 })

/-! ## Reference semantics for the claims

The definitions below are *not* translations of logic.c; they are the
independent "mathematically obvious" meanings the claims compare the code
against: left-to-right infix evaluation with two precedence levels, and
fixed-format decimal value of a numeric-entry string. -/

/-- The meaning of one operator application used by the reference
evaluator: `'/'` has no value when the divisor is within `FLOAT_EPSILON`
of zero (the program's division semantics per the spec). -/
def applyOp (op : Char) (a b : ℚ) : Option ℚ :=
  if op = '+' then some (a + b)
  else if op = '-' then some (a - b)
  else if op = '*' then some (a * b)
  else if op = '/' then
    if |b| < FLOAT_EPSILON then none else some (a / b)
  else none

/-- Reference left-to-right evaluation of `acc pend cur op₁ b₁ op₂ b₂ …`
with two precedence levels: a multiplicative operator combines into the
current multiplicative run `cur` at once; an additive operator first
collapses `acc pend cur` and starts a new run.  Left associativity within
each precedence level is immediate from the left-to-right folds. -/
def refLoop (acc : ℚ) (pend : Char) (cur : ℚ) : List (Char × ℚ) → Option ℚ
  | [] => applyOp pend acc cur
  | (o, b) :: rest =>
    if o = '*' ∨ o = '/' then
      match applyOp o cur b with
      | some v => refLoop acc pend v rest
      | none => none
    else
      match applyOp pend acc cur with
      | some a' => refLoop a' o b rest
      | none => none

/-- The value of the infix expression `a op₁ b₁ op₂ b₂ …` under precedence
(`+`,`-` → 1; `*`,`/` → 2) with left-to-right tie resolution. -/
def refValue (a : ℚ) (ps : List (Char × ℚ)) : Option ℚ := refLoop 0 '+' a ps

/-- The well-formed token buffers of claim C1: alternating, starting and
ending with a number.  `ofPairs a [(op₁,b₁),…]` is `a op₁ b₁ …`. -/
def ofPairs (a : ℚ) : List (Char × ℚ) → List Token
  | [] => [Token.num a]
  | (o, b) :: ps => Token.num a :: Token.op o :: ofPairs b ps

/-- The token tail of `ofPairs` after its leading number. -/
def pairsToks : List (Char × ℚ) → List Token
  | [] => []
  | (o, b) :: ps => Token.op o :: Token.num b :: pairsToks ps

/-- Integer-part accumulation `acc = acc*10 + digit`, as in the claim. -/
def intVal (ds : List Char) : ℚ := ds.foldl (fun a c => a * 10 + digitVal c) 0

/-- Fractional-part accumulation with a multiplier starting at `mult` and
shrinking by `1/10` per digit, as in the claim. -/
def fracVal : List Char → ℚ → ℚ
  | [], _ => 0
  | c :: cs, mult => digitVal c * mult + fracVal cs (mult * (1 / 10))

/-- The mathematically obvious decimal value of the numeric-entry string
with sign `neg`, integer digits `ds1` and fractional digits `ds2`. -/
def decValue (neg : Bool) (ds1 ds2 : List Char) : ℚ :=
  if neg then -(intVal ds1 + fracVal ds2 (1 / 10)) else intVal ds1 + fracVal ds2 (1 / 10)

/-- A numeric-entry string: optional leading `-`, integer digits, then
optionally a `.` followed by fractional digits. -/
def numEntryStr (neg hasDot : Bool) (ds1 ds2 : List Char) : List Char :=
  (if neg then ['-'] else []) ++ ds1 ++ (if hasDot then '.' :: ds2 else [])

/-! ## The session state machine (`RunCalculatorLogic`)

One iteration of the main loop of logic.c (lines 430-628), as a function of
the state the loop reads and writes: the globals plus the loop locals
`calculation_has_ended`, `decimal_point_entered`, `last_key_was_operator`.
Keys are the key codes of keypad.h (`KEY_0 = 0x0` … `KEY_9 = 0x9`,
`KEY_PLUS = 0xA` … `KEY_DIVIDE = 0xD`, `KEY_EQUALS = 0xE`,
`KEY_DECIMAL = 0xF`, `KEY_NONE = 0xFF`).  All LCD output is omitted; the
only formatting-dependent state write in the source, the `"Err: Display"`
branch, is unreachable because the `%.3e` fallback is at most 11 < 16
characters, so the equals handler below drops it. -/

/-- `KEY_NONE`. -/
def KEY_NONE : Nat := 255

/-- The mutable state of one calculator session. -/
structure LoopState where
  expr : List Token
  err : ErrState
  current_num : List Char
  calculation_has_ended : Bool
  decimal_point_entered : Bool
  last_key_was_operator : Bool
deriving DecidableEq, Repr

/-- Digit-key handling (logic.c lines 480-487); `k` is the digit 0-9. -/
def process_digit_key (k : Nat) (s : LoopState) : LoopState :=
  if s.current_num.length < LCD_LINE_LEN then
    { s with current_num := s.current_num ++ [Char.ofNat ('0'.toNat + k)],
             last_key_was_operator := false }
  else { s with err := set_error msgNumLen s.err }

/-- Decimal-point-key handling (logic.c lines 488-501). -/
def process_decimal_key (s : LoopState) : LoopState :=
  if ¬s.decimal_point_entered ∧ s.current_num.length < LCD_LINE_LEN - 1 then
    let cn := if s.current_num.length = 0 then s.current_num ++ ['0'] else s.current_num
    { s with current_num := cn ++ ['.'],
             decimal_point_entered := true,
             last_key_was_operator := false }
  else if s.decimal_point_entered then { s with err := set_error msgSyntax s.err }
  else { s with err := set_error msgNumLen s.err }

/-- `op_char_map[current_key - KEY_PLUS]` (logic.c line 503). -/
def op_char_map (k : Nat) : Char :=
  if k = 10 then '+' else if k = 11 then '-' else if k = 12 then '*' else '/'

/-- Operator-key handling (logic.c lines 502-539): unary minus when `-` is
pressed with no pending digits at the start of the expression or right
after an operator; otherwise commit any pending number, apply the
missing-operand syntax check, and push the operator if no error arose. -/
def process_operator_key (k : Nat) (s : LoopState) : LoopState :=
  let c := op_char_map k
  if c = '-' ∧ (s.expr.length = 0 ∨ s.last_key_was_operator) ∧ s.current_num.length = 0 then
    if s.current_num.length < LCD_LINE_LEN then
      { s with current_num := s.current_num ++ ['-'], last_key_was_operator := false }
    else { s with err := set_error msgNumLen s.err }
  else
    let s₁ :=
      if 0 < s.current_num.length then
        let p := parse_current_input_number s.current_num s.err
        let s' :=
          if p.2.calculator_error = false then
            let pr := push_operand_to_expr p.1 s.expr p.2
            { s with expr := pr.1, err := pr.2 }
          else { s with err := p.2 }
        { s' with current_num := [], decimal_point_entered := false }
      else if s.expr.length = 0 ∨ (lastIsOp s.expr ∧ s.last_key_was_operator = false) then
        if c ≠ '+' then { s with err := set_error msgSyntax s.err } else s
      else s
    if s₁.err.calculator_error = false then
      let pr := push_operator_to_expr c s₁.expr s₁.err
      { s₁ with expr := pr.1, err := pr.2, last_key_was_operator := true }
    else s₁

/-- Equals-key handling (logic.c lines 540-611): commit any pending number,
reject a trailing operator, evaluate, and enter the result/error-shown
state.  Only the state writes are modelled; the result/error rendering is
display-only (see the note above on `"Err: Display"`). -/
def process_equals_key (s : LoopState) : LoopState :=
  let s₁ :=
    if 0 < s.current_num.length ∧ s.err.calculator_error = false then
      let p := parse_current_input_number s.current_num s.err
      if p.2.calculator_error = false then
        let pr := push_operand_to_expr p.1 s.expr p.2
        { s with expr := pr.1, err := pr.2 }
      else { s with err := p.2 }
    else s
  let s₂ :=
    if s₁.current_num.length = 0 ∧ 0 < s₁.expr.length ∧ lastIsOp s₁.expr
        ∧ s₁.err.calculator_error = false then
      { s₁ with err := set_error msgSyntax s₁.err }
    else s₁
  let s₃ :=
    if s₂.err.calculator_error = false then
      { s₂ with err := (evaluate_full_expression ⟨s₂.expr, s₂.err⟩).2.err }
    else s₂
  { s₃ with calculation_has_ended := true, current_num := [],
            decimal_point_entered := false }

/-- The key dispatch of logic.c lines 479-611 (a key code outside the
keypad's 0x0-0xF range falls through with no state change). -/
def process_valid_key (k : Nat) (s : LoopState) : LoopState :=
  if k ≤ 9 then process_digit_key k s
  else if k = 15 then process_decimal_key s
  else if 10 ≤ k ∧ k ≤ 13 then process_operator_key k s
  else if k = 14 then process_equals_key s
  else s

/-- The post-processing block of logic.c lines 613-626: if the key's
processing raised an error and no result is being shown, display the error
and enter the "calculation has ended" (error-shown) state in this same
iteration. -/
def loop_tail (s : LoopState) : LoopState :=
  if s.calculation_has_ended = false then
    if s.err.calculator_error then { s with calculation_has_ended := true } else s
  else s

/-- One full iteration of the main loop (logic.c lines 430-628) on key
observation `k`: the ended-state reset (lines 434-453), the pending-error
display state (lines 457-471), the `KEY_NONE` wait, key processing, and
the post-processing block. -/
def loop_step (k : Nat) (s : LoopState) : LoopState :=
  if s.calculation_has_ended then
    if k ≠ KEY_NONE then
      let error_was_being_displayed := s.err.calculator_error
      let s' : LoopState :=
        { expr := [], err := ⟨false, ""⟩, current_num := [],
          calculation_has_ended := false, decimal_point_entered := false,
          last_key_was_operator := false }
      if k = 14 ∧ error_was_being_displayed then s'
      else loop_tail (process_valid_key k s')
    else s
  else if s.err.calculator_error then
    if k = KEY_NONE then s else { s with calculation_has_ended := true }
  else if k = KEY_NONE then s
  else loop_tail (process_valid_key k s)

/-- A single push request to the token buffer, for stating the capacity
invariant of claim C7. -/
inductive PushOp where
  | num (v : ℚ)
  | op (c : Char)
deriving DecidableEq, Repr

/-- Applies one push request via the corresponding logic.c function. -/
def applyPush : List Token × ErrState → PushOp → List Token × ErrState
  | (e, st), PushOp.num v => push_operand_to_expr v e st
  | (e, st), PushOp.op c => push_operator_to_expr c e st

/-- The token a push request would append. -/
def tokenOfPush : PushOp → Token
  | PushOp.num v => Token.num v
  | PushOp.op c => Token.op c

/-- `n` pushes alternating operand/operator, starting with an operand. -/
def altPushes (n : Nat) : List PushOp :=
  (List.range n).map (fun i => if i % 2 = 0 then PushOp.num 1 else PushOp.op '+')

/-! ## Helper lemmas -/

/-- `set_error` on an inactive error state, for messages short enough not
to be truncated (all five messages of logic.c are at most 14 chars). -/
lemma set_error_eq (msg : String) (st : ErrState) (h : st.calculator_error = false)
    (htake : msg.take (ERROR_MSG_LEN - 1) = msg) : set_error msg st = ⟨true, msg⟩ := by
  simp [set_error, h, htake]

lemma msgSyntax_take : msgSyntax.take (ERROR_MSG_LEN - 1) = msgSyntax := by decide

lemma msgDivZero_take : msgDivZero.take (ERROR_MSG_LEN - 1) = msgDivZero := by decide

lemma msgExprLong_take : msgExprLong.take (ERROR_MSG_LEN - 1) = msgExprLong := by decide

end Calc

namespace Calc

/-- Claim C4: once the error flag is active, every later `set_error` (in
particular any sequence of them) leaves flag and message unchanged; when no
error is active, `set_error msg` sets the flag and stores `msg` truncated
to the 16-character capacity. -/
theorem C4_first_error_wins (st : ErrState) (msg : String) :
    (st.calculator_error = true →
      set_error msg st = st ∧
      ∀ msgs : List String, msgs.foldl (fun s m => set_error m s) st = st) ∧
    (st.calculator_error = false →
      (set_error msg st).calculator_error = true ∧
      (set_error msg st).error_message = msg.take 16) := by
  constructor
  · intro h
    have hone : ∀ m : String, set_error m st = st := by
      intro m; simp [set_error, h]
    refine ⟨hone msg, ?_⟩
    intro msgs
    induction msgs with
    | nil => rfl
    | cons m ms ih => simpa [hone m] using ih
  · intro h
    simp [set_error, h, ERROR_MSG_LEN]

/-- Witness for C4 at concrete states. -/
theorem C4_first_error_wins_witness :
    set_error msgDivZero ⟨true, msgSyntax⟩ = ⟨true, msgSyntax⟩ ∧
    (set_error msgSyntax ⟨false, ""⟩).error_message = msgSyntax :=
  ⟨((C4_first_error_wins ⟨true, msgSyntax⟩ msgDivZero).1 rfl).1,
   by
    have h := ((C4_first_error_wins ⟨false, ""⟩ msgSyntax).2 rfl).2
    rw [h]; decide⟩

/-- Claim C5: with no prior error, the empty buffer evaluates to `0` with
no error; a single `Number` token evaluates to its value with no error; and
any buffer ending in an `Operator` (a lone operator included) yields a
Syntax error with result `0`, independent of the rest of the buffer (i.e.
before any stack work). -/
theorem C5_trivial_buffers (st : ErrState) (h : st.calculator_error = false) :
    evaluate_full_expression ⟨[], st⟩ = (0, ⟨[], st⟩) ∧
    (∀ v : ℚ, evaluate_full_expression ⟨[Token.num v], st⟩ = (v, ⟨[Token.num v], st⟩)) ∧
    (∀ e : List Token, lastIsOp e = true →
      evaluate_full_expression ⟨e, st⟩ = (0, ⟨e, ⟨true, msgSyntax⟩⟩)) := by
  refine ⟨?_, ?_, ?_⟩
  · simp [evaluate_full_expression, h]
  · intro v
    simp [evaluate_full_expression, h, lastIsOp]
  · intro e he
    match e, he with
    | t :: ts, he =>
      simp [evaluate_full_expression, h, he, set_error_eq _ _ h msgSyntax_take]

/-- Witness for C5 at concrete inputs. -/
theorem C5_trivial_buffers_witness :
    evaluate_full_expression ⟨[Token.num 7], ⟨false, ""⟩⟩ =
      (7, ⟨[Token.num 7], ⟨false, ""⟩⟩) ∧
    evaluate_full_expression ⟨[Token.num 5, Token.op '*', Token.op '+'], ⟨false, ""⟩⟩ =
      (0, ⟨[Token.num 5, Token.op '*', Token.op '+'], ⟨true, msgSyntax⟩⟩) :=
  ⟨(C5_trivial_buffers ⟨false, ""⟩ rfl).2.1 7,
   (C5_trivial_buffers ⟨false, ""⟩ rfl).2.2 [Token.num 5, Token.op '*', Token.op '+']
     (by decide)⟩

/-- Claim C6: with no prior error, applying `/` with a divisor of magnitude
below `1e-7` raises "Err: Div Zero" and returns the sentinel `0`, and a
drain whose top operator is such a division aborts at once (the remaining
stacked operators are not applied); otherwise `/` divides, and `+`, `-`,
`*` return the exact arithmetic result with no error. -/
theorem C6_division_guard (st : ErrState) (a b : ℚ) (h : st.calculator_error = false) :
    (|b| < FLOAT_EPSILON →
      execute_apply_operator '/' a b st = (0, ⟨true, msgDivZero⟩)) ∧
    (¬|b| < FLOAT_EPSILON →
      execute_apply_operator '/' a b st = (a / b, st)) ∧
    execute_apply_operator '+' a b st = (a + b, st) ∧
    execute_apply_operator '-' a b st = (a - b, st) ∧
    execute_apply_operator '*' a b st = (a * b, st) ∧
    (∀ (vs : List ℚ) (ops : List Char), |b| < FLOAT_EPSILON →
      drainRemaining (b :: a :: vs) ('/' :: ops) st = (0, ⟨true, msgDivZero⟩)) := by
  have hdiv : |b| < FLOAT_EPSILON →
      execute_apply_operator '/' a b st = (0, ⟨true, msgDivZero⟩) := by
    intro hb
    simp [execute_apply_operator, h, hb, set_error_eq _ _ h msgDivZero_take]
  refine ⟨hdiv, ?_, ?_, ?_, ?_, ?_⟩
  · intro hb; simp [execute_apply_operator, h, hb]
  · simp [execute_apply_operator, h]
  · simp [execute_apply_operator, h]
  · simp [execute_apply_operator, h]
  · intro vs ops hb
    simp [drainRemaining, hdiv hb]

/-- Witness for C6 at concrete inputs. -/
theorem C6_division_guard_witness :
    execute_apply_operator '/' 1 0 ⟨false, ""⟩ = (0, ⟨true, msgDivZero⟩) ∧
    execute_apply_operator '/' 8 2 ⟨false, ""⟩ = (4, ⟨false, ""⟩) ∧
    drainRemaining [0, 1, 8] ['/', '+'] ⟨false, ""⟩ = (0, ⟨true, msgDivZero⟩) := by
  refine ⟨(C6_division_guard ⟨false, ""⟩ 1 0 rfl).1 (by norm_num [FLOAT_EPSILON]), ?_, ?_⟩
  · have h := (C6_division_guard ⟨false, ""⟩ 8 2 rfl).2.1 (by norm_num [FLOAT_EPSILON])
    rw [h]; norm_num
  · exact (C6_division_guard ⟨false, ""⟩ 1 0 rfl).2.2.2.2.2 [8] ['+']
      (by norm_num [FLOAT_EPSILON])

/-- Claim C10: `evaluate_full_expression` leaves the token buffer exactly
as it was — the C function never writes `expr_type`, `expr_data` or
`expr_len`, so in the embedding the output state's buffer is the input
buffer whatever the evaluation outcome; only the error state and the
returned value are produced. -/
theorem C10_evaluation_frame (s : CalcState) :
    ((evaluate_full_expression s).2).expr = s.expr := rfl

/-- One push never takes the buffer past `MAX_TOKENS`. -/
lemma applyPush_length_le (x : List Token × ErrState) (p : PushOp)
    (h : x.1.length ≤ MAX_TOKENS) : (applyPush x p).1.length ≤ MAX_TOKENS := by
  obtain ⟨e, st⟩ := x
  cases p <;>
    simp only [applyPush, push_operand_to_expr, push_operator_to_expr] <;>
    split_ifs <;> simp_all <;> omega

/-- Claim C7: pushes are no-ops while an error is active; at capacity they
set "Err: Expr Long" and leave the buffer unchanged; below capacity they
append exactly one token; hence the buffer never exceeds `MAX_TOKENS`, and
51 alternating pushes fill it, set the error, and freeze further pushes. -/
theorem C7_push_capacity :
    (∀ (e : List Token) (st : ErrState) (p : PushOp),
      st.calculator_error = true → applyPush (e, st) p = (e, st)) ∧
    (∀ (e : List Token) (st : ErrState) (p : PushOp),
      st.calculator_error = false → e.length = MAX_TOKENS →
      applyPush (e, st) p = (e, ⟨true, msgExprLong⟩)) ∧
    (∀ (e : List Token) (st : ErrState) (p : PushOp),
      st.calculator_error = false → e.length < MAX_TOKENS →
      applyPush (e, st) p = (e ++ [tokenOfPush p], st)) ∧
    (∀ (e : List Token) (st : ErrState) (l : List PushOp),
      e.length ≤ MAX_TOKENS → ((l.foldl applyPush (e, st)).1).length ≤ MAX_TOKENS) ∧
    ((altPushes 51).foldl applyPush ([], ⟨false, ""⟩)).1.length = MAX_TOKENS ∧
    ((altPushes 51).foldl applyPush ([], ⟨false, ""⟩)).2 = ⟨true, msgExprLong⟩ ∧
    (altPushes 60).foldl applyPush ([], ⟨false, ""⟩) =
      (altPushes 51).foldl applyPush ([], ⟨false, ""⟩) := by
  refine ⟨?_, ?_, ?_, ?_, by decide, by decide, by decide⟩
  · intro e st p h
    cases p <;> simp [applyPush, push_operand_to_expr, push_operator_to_expr, h]
  · intro e st p h hlen
    have hge : MAX_TOKENS ≤ e.length := le_of_eq hlen.symm
    cases p <;>
      simp [applyPush, push_operand_to_expr, push_operator_to_expr, h, hge,
        set_error_eq _ _ h msgExprLong_take]
  · intro e st p h hlen
    cases p <;>
      simp [applyPush, push_operand_to_expr, push_operator_to_expr, h,
        not_le.mpr hlen, tokenOfPush]
  · intro e st l
    induction l generalizing e st with
    | nil => intro h; simpa using h
    | cons p l ih =>
      intro h
      have h' := applyPush_length_le (e, st) p h
      rw [List.foldl_cons]
      rcases hy : applyPush (e, st) p with ⟨e2, st2⟩
      rw [hy] at h'
      exact ih e2 st2 h'

/-- Witness for C7 at a concrete push below capacity. -/
theorem C7_push_capacity_witness :
    applyPush ([], ⟨false, ""⟩) (PushOp.num 2) = ([Token.num 2], ⟨false, ""⟩) :=
  C7_push_capacity.2.2.1 [] ⟨false, ""⟩ (PushOp.num 2) rfl (by decide)

/-- A digit character is not the dot. -/
lemma digit_ne_dot {c : Char} (hc : '0' ≤ c ∧ c ≤ '9') : ¬c = '.' := by
  intro h
  subst h
  exact (by decide : ¬('0' : Char) ≤ '.') hc.1

/-- A digit character is not the minus sign. -/
lemma digit_ne_minus {c : Char} (hc : '0' ≤ c ∧ c ≤ '9') : ¬c = '-' := by
  intro h
  subst h
  exact (by decide : ¬('0' : Char) ≤ '-') hc.1

/-- Integer-part phase of the scan: consuming digits multiplies the
accumulator by 10 and adds each digit. -/
lemma parse_loop_int_phase (neg : Bool) (ds : List Char) :
    ∀ (rest : List Char) (res mult : ℚ) (st : ErrState),
      (∀ c ∈ ds, '0' ≤ c ∧ c ≤ '9') →
      parse_loop neg (ds ++ rest) res mult false st
        = parse_loop neg rest (ds.foldl (fun a c => a * 10 + digitVal c) res) mult false st := by
  induction ds with
  | nil => intro rest res mult st _; simp
  | cons c cs ih =>
    intro rest res mult st hd
    have hc := hd c (List.mem_cons_self c cs)
    have hstep : parse_loop neg (c :: (cs ++ rest)) res mult false st
        = parse_loop neg (cs ++ rest) (res * 10 + digitVal c) mult false st := by
      simp [parse_loop, digit_ne_dot hc, hc]
    rw [List.cons_append, hstep, ih rest _ mult st (fun x hx => hd x (List.mem_cons_of_mem c hx))]
    simp

/-- Fractional-part phase of the scan: each digit contributes
`digit * multiplier` with the multiplier shrinking by `1/10` per digit,
and the sign is applied at the end. -/
lemma parse_loop_frac_phase (neg : Bool) (ds : List Char) :
    ∀ (res mult : ℚ) (st : ErrState),
      (∀ c ∈ ds, '0' ≤ c ∧ c ≤ '9') →
      parse_loop neg ds res mult true st
        = (if neg then -(res + fracVal ds mult) else res + fracVal ds mult, st) := by
  induction ds with
  | nil => intro res mult st _; simp [parse_loop, fracVal]
  | cons c cs ih =>
    intro res mult st hd
    have hc := hd c (List.mem_cons_self c cs)
    have hstep : parse_loop neg (c :: cs) res mult true st
        = parse_loop neg cs (res + digitVal c * mult) (mult * (1 / 10)) true st := by
      simp [parse_loop, digit_ne_dot hc, hc]
    rw [hstep, ih _ _ st (fun x hx => hd x (List.mem_cons_of_mem c hx))]
    cases neg <;> simp [fracVal] <;> ring_nf

/-- The scan faults with "Err: Syntax" whenever the remaining characters
contain a non-digit non-dot character, a second dot, or any dot while
already in the fractional part. -/
lemma parse_loop_err (neg : Bool) (cs : List Char) :
    ∀ (res mult : ℚ) (inDec : Bool) (st : ErrState),
      ((∃ c ∈ cs, ¬('0' ≤ c ∧ c ≤ '9') ∧ c ≠ '.') ∨ 2 ≤ cs.count '.' ∨
        (inDec = true ∧ 1 ≤ cs.count '.')) →
      parse_loop neg cs res mult inDec st = (0, set_error msgSyntax st) := by
  induction cs with
  | nil => intro res mult inDec st h; simp [List.count_nil] at h
  | cons c cs ih =>
    intro res mult inDec st h
    by_cases hdot : c = '.'
    · subst hdot
      cases hin : inDec with
      | true => simp [parse_loop]
      | false =>
        have hstep : parse_loop neg ('.' :: cs) res mult false st
            = parse_loop neg cs res mult true st := by
          simp [parse_loop]
        rw [hstep]
        apply ih
        rcases h with ⟨x, hx, hbad⟩ | hcount | ⟨hfalse, _⟩
        · rcases List.mem_cons.mp hx with rfl | hx'
          · exact absurd rfl hbad.2
          · exact Or.inl ⟨x, hx', hbad⟩
        · right; right
          refine ⟨rfl, ?_⟩
          have h1 : List.count '.' ('.' :: cs) = List.count '.' cs + 1 := by
            simp [List.count_cons]
          rw [h1] at hcount
          omega
        · exact absurd hfalse (by simp [hin])
    · by_cases hdig : '0' ≤ c ∧ c ≤ '9'
      · have hstep : parse_loop neg (c :: cs) res mult inDec st
            = parse_loop neg cs
                (if inDec then res + digitVal c * mult else res * 10 + digitVal c)
                (if inDec then mult * (1 / 10) else mult) inDec st := by
          cases inDec <;> simp [parse_loop, hdot, hdig]
        rw [hstep]
        apply ih
        rcases h with ⟨x, hx, hbad⟩ | hcount | ⟨hdec, hcount⟩
        · rcases List.mem_cons.mp hx with rfl | hx'
          · exact absurd hdig hbad.1
          · exact Or.inl ⟨x, hx', hbad⟩
        · right; left
          simpa [List.count_cons, hdot] using hcount
        · right; right
          exact ⟨hdec, by simpa [List.count_cons, hdot] using hcount⟩
      · cases inDec <;> simp [parse_loop, hdot, hdig]

/-- The region of the pending-entry buffer actually scanned by
`parse_current_input_number`: everything after an optional leading `-`
(the `start_idx` of logic.c). -/
def scannedPart (s : List Char) : List Char := if s.headI = '-' then s.tail else s

/-- The scan of a whole well-formed body (integer digits, then optionally a
dot and fractional digits) produces the decimal value. -/
lemma parse_loop_body (neg hasDot : Bool) (ds1 ds2 : List Char) (st : ErrState)
    (h1 : ∀ c ∈ ds1, '0' ≤ c ∧ c ≤ '9') (h2 : ∀ c ∈ ds2, '0' ≤ c ∧ c ≤ '9')
    (hdz : hasDot = false → ds2 = []) :
    parse_loop neg (ds1 ++ (if hasDot then '.' :: ds2 else [])) 0 (1 / 10) false st
      = (decValue neg ds1 ds2, st) := by
  rw [parse_loop_int_phase neg ds1 _ 0 (1 / 10) st h1]
  cases hasDot with
  | false =>
    have hds2 := hdz rfl
    subst hds2
    simp [parse_loop, decValue, fracVal, intVal]
  | true =>
    have hstep : ∀ r : ℚ, parse_loop neg ('.' :: ds2) r (1 / 10) false st
        = parse_loop neg ds2 r (1 / 10) true st := by
      intro r; simp [parse_loop]
    rw [show (if (true : Bool) = true then '.' :: ds2 else ([] : List Char)) = '.' :: ds2
      from rfl]
    rw [hstep, parse_loop_frac_phase neg ds2 _ _ st h2]
    simp [decValue, intVal]

/-- Guard reduction of the parser for a buffer with a leading minus and a
nonempty remainder. -/
lemma parse_guard_minus (body : List Char) (st : ErrState) (hbody : body ≠ []) :
    parse_current_input_number ('-' :: body) st
      = parse_loop true body 0 (1 / 10) false st := by
  simp [parse_current_input_number, hbody]

/-- Guard reduction of the parser for a nonempty buffer not starting with a
minus and not equal to the lone dot. -/
lemma parse_guard_plain (body : List Char) (st : ErrState) (h0 : body ≠ [])
    (h2 : body.headI ≠ '-') (h3 : ¬(body.length = 1 ∧ body.headI = '.')) :
    parse_current_input_number body st
      = parse_loop false body 0 (1 / 10) false st := by
  have h0' : body.length ≠ 0 := by simpa [List.length_eq_zero] using h0
  simp [parse_current_input_number, h0', h2, h3]

/-- Claim C2: on every numeric-entry string (optional leading `-`, digits,
at most one `.`) containing at least one digit, the parser returns exactly
the mathematically obvious decimal value — in particular within `1e-6` —
and raises no error (the error state is returned untouched). -/
theorem C2_parse_value :
    (∀ (neg hasDot : Bool) (ds1 ds2 : List Char) (st : ErrState),
      (∀ c ∈ ds1, '0' ≤ c ∧ c ≤ '9') →
      (∀ c ∈ ds2, '0' ≤ c ∧ c ≤ '9') →
      (hasDot = false → ds2 = []) →
      ds1 ++ ds2 ≠ [] →
      parse_current_input_number (numEntryStr neg hasDot ds1 ds2) st
        = (decValue neg ds1 ds2, st)) ∧
    parse_current_input_number ['1', '2', '.', '3', '4'] ⟨false, ""⟩
      = (1234 / 100, ⟨false, ""⟩) ∧
    parse_current_input_number ['-', '1', '0'] ⟨false, ""⟩ = (-10, ⟨false, ""⟩) ∧
    parse_current_input_number ['0', '.', '5'] ⟨false, ""⟩ = (1 / 2, ⟨false, ""⟩) := by
  refine ⟨?_, ?_, ?_, ?_⟩
  · intro neg hasDot ds1 ds2 st h1 h2 hdz hne
    have hbody : ds1 ++ (if hasDot then '.' :: ds2 else []) ≠ [] := by
      cases hasDot with
      | true => cases ds1 <;> simp
      | false =>
        have hds2 := hdz rfl
        subst hds2
        simpa using hne
    have hmain : parse_current_input_number
        ((if neg then ['-'] else []) ++ (ds1 ++ (if hasDot then '.' :: ds2 else []))) st
        = (decValue neg ds1 ds2, st) := by
      cases neg with
      | true =>
        rw [show ((if (true : Bool) = true then ['-'] else [])
              ++ (ds1 ++ (if hasDot then '.' :: ds2 else [])))
            = '-' :: (ds1 ++ (if hasDot then '.' :: ds2 else [])) from rfl]
        rw [parse_guard_minus _ st hbody]
        exact parse_loop_body true hasDot ds1 ds2 st h1 h2 hdz
      | false =>
        rw [show ((if (false : Bool) = true then ['-'] else [])
              ++ (ds1 ++ (if hasDot then '.' :: ds2 else [])))
            = ds1 ++ (if hasDot then '.' :: ds2 else []) from rfl]
        cases ds1 with
        | cons c cs =>
          have hc := h1 c (List.mem_cons_self c cs)
          rw [parse_guard_plain _ st hbody
            (by simpa [List.cons_append] using digit_ne_minus hc)
            (by rw [List.cons_append]; rintro ⟨-, hh⟩
                exact digit_ne_dot hc (by simpa using hh))]
          exact parse_loop_body false hasDot (c :: cs) ds2 st h1 h2 hdz
        | nil =>
          cases hasDot with
          | false =>
            have hds2 := hdz rfl
            subst hds2
            exact absurd rfl hne
          | true =>
            have hds2 : ds2 ≠ [] := by simpa using hne
            have hpos := List.length_pos.mpr hds2
            have h3 : ¬(('.' :: ds2).length = 1 ∧ ('.' :: ds2).headI = '.') := by
              rintro ⟨hl, -⟩
              rw [List.length_cons] at hl
              omega
            show parse_current_input_number ('.' :: ds2) st = (decValue false [] ds2, st)
            rw [parse_guard_plain ('.' :: ds2) st (by simp) (by simp) h3]
            exact parse_loop_body false true [] ds2 st h1 h2 (by simp)
    simpa [numEntryStr, List.append_assoc] using hmain
  · simp [parse_current_input_number, parse_loop, digitVal]
    norm_num
  · simp [parse_current_input_number, parse_loop, digitVal]
  · simp [parse_current_input_number, parse_loop, digitVal]
    norm_num

/-- Witness for C2 at a concrete numeric entry ("-3.25"). -/
theorem C2_parse_value_witness :
    parse_current_input_number (numEntryStr true true ['3'] ['2', '5']) ⟨false, ""⟩
      = (decValue true ['3'] ['2', '5'], ⟨false, ""⟩) :=
  C2_parse_value.1 true true ['3'] ['2', '5'] ⟨false, ""⟩ (by decide) (by decide)
    (by decide) (by decide)

/-- Claim C3: the empty entry parses to `0` with no error; lone `-` or lone
`.` fault with "Err: Syntax"; and any entry whose scanned region (after the
optional leading `-`) contains a character outside `[0-9.-]` or a second
`.` faults with "Err: Syntax" and returns `0`. -/
theorem C3_parse_faults (st : ErrState) (h : st.calculator_error = false) :
    parse_current_input_number [] st = (0, st) ∧
    parse_current_input_number ['-'] st = (0, ⟨true, msgSyntax⟩) ∧
    parse_current_input_number ['.'] st = (0, ⟨true, msgSyntax⟩) ∧
    (∀ s : List Char, s ≠ [] →
      ((∃ c ∈ scannedPart s, ¬('0' ≤ c ∧ c ≤ '9') ∧ c ≠ '.' ∧ c ≠ '-') ∨
        2 ≤ (scannedPart s).count '.') →
      parse_current_input_number s st = (0, ⟨true, msgSyntax⟩)) ∧
    parse_current_input_number ['1', '.', '2', '.', '3'] st = (0, ⟨true, msgSyntax⟩) ∧
    parse_current_input_number ['1', '2', 'a', '3'] st = (0, ⟨true, msgSyntax⟩) := by
  have hse := set_error_eq msgSyntax st h msgSyntax_take
  refine ⟨by simp [parse_current_input_number], ?_, ?_, ?_, ?_, ?_⟩
  · simp [parse_current_input_number, hse]
  · simp [parse_current_input_number, hse]
  · intro s hs hcond
    have htrans : ∀ cs : List Char,
        ((∃ x ∈ cs, ¬('0' ≤ x ∧ x ≤ '9') ∧ x ≠ '.' ∧ x ≠ '-') ∨ 2 ≤ cs.count '.') →
        ((∃ x ∈ cs, ¬('0' ≤ x ∧ x ≤ '9') ∧ x ≠ '.') ∨ 2 ≤ cs.count '.' ∨
          ((false : Bool) = true ∧ 1 ≤ cs.count '.')) := by
      rintro cs (⟨x, hx, hb1, hb2, _⟩ | hc)
      · exact Or.inl ⟨x, hx, hb1, hb2⟩
      · exact Or.inr (Or.inl hc)
    rcases s with _ | ⟨c, t⟩
    · exact absurd rfl hs
    by_cases hneg : c = '-'
    · subst hneg
      rcases t with _ | ⟨d, u⟩
      · simp [parse_current_input_number, hse]
      · have hloop : parse_current_input_number ('-' :: d :: u) st
            = parse_loop true (d :: u) 0 (1 / 10) false st :=
          parse_guard_minus (d :: u) st (by simp)
        have hsc : scannedPart ('-' :: d :: u) = d :: u := by simp [scannedPart]
        rw [hsc] at hcond
        rw [hloop, parse_loop_err true (d :: u) 0 (1 / 10) false st (htrans _ hcond), hse]
    · have hsc : scannedPart (c :: t) = c :: t := by simp [scannedPart, hneg]
      rw [hsc] at hcond
      by_cases hd1 : (c :: t).length = 1 ∧ (c :: t).headI = '.'
      · obtain ⟨hl, hh⟩ := hd1
        have ht : t = [] := by
          rw [List.length_cons] at hl
          exact List.length_eq_zero.mp (by omega)
        have hc : c = '.' := by simpa using hh
        subst ht
        subst hc
        simp [parse_current_input_number, hse]
      · have hloop : parse_current_input_number (c :: t) st
            = parse_loop false (c :: t) 0 (1 / 10) false st :=
          parse_guard_plain (c :: t) st (by simp) (by simpa using hneg) hd1
        rw [hloop, parse_loop_err false (c :: t) 0 (1 / 10) false st (htrans _ hcond), hse]

  · simp [parse_current_input_number, parse_loop, hse]
  · simp [parse_current_input_number, parse_loop, hse]

/-- Witness for C3 at a concrete entry containing a non-digit character. -/
theorem C3_parse_faults_witness :
    parse_current_input_number ['1', '2', 'a', '3'] ⟨false, ""⟩ = (0, ⟨true, msgSyntax⟩) :=
  (C3_parse_faults ⟨false, ""⟩ rfl).2.2.2.1 ['1', '2', 'a', '3'] (by decide) (by decide)

/-! ## Equivalence of the two-stack evaluator with the reference semantics -/

lemma prec_of_addlike {c : Char} (h : c = '+' ∨ c = '-') : get_precedence c = 1 := by
  rcases h with rfl | rfl <;> decide

lemma prec_of_mullike {c : Char} (h : c = '*' ∨ c = '/') : get_precedence c = 2 := by
  rcases h with rfl | rfl <;> decide

lemma addlike_not_mullike {c : Char} (h : c = '+' ∨ c = '-') : ¬(c = '*' ∨ c = '/') := by
  rcases h with rfl | rfl <;> decide

/-- When the reference application succeeds, the machine's operator
application returns the same value without touching the error state. -/
lemma execute_of_applyOp {c : Char} {a b m : ℚ} {st : ErrState}
    (hm : applyOp c a b = some m) (hst : st.calculator_error = false) :
    execute_apply_operator c a b st = (m, st) := by
  unfold applyOp at hm
  unfold execute_apply_operator
  split_ifs at hm ⊢ <;> simp_all

lemma applyOp_add (a b : ℚ) : applyOp '+' a b = some (a + b) := by simp [applyOp]

lemma applyOp_addlike {c : Char} (h : c = '+' ∨ c = '-') (a b : ℚ) :
    ∃ v, applyOp c a b = some v := by
  rcases h with rfl | rfl
  · exact ⟨a + b, by simp [applyOp]⟩
  · exact ⟨a - b, by simp [applyOp]⟩

lemma popApply_nil (cur : Char) (vs : List ℚ) (st : ErrState) :
    popApplyWhile cur vs [] st = .ok (vs, [], st) := rfl

lemma popApply_lower {top cur : Char} (hlt : get_precedence top < get_precedence cur)
    (vs : List ℚ) (ops : List Char) (st : ErrState) :
    popApplyWhile cur vs (top :: ops) st = .ok (vs, top :: ops, st) := by
  simp [popApplyWhile, not_le.mpr hlt]

lemma popApply_pop {top cur : Char} {a b m : ℚ} {vs' : List ℚ} {ops : List Char}
    {st : ErrState} (hge : get_precedence top ≥ get_precedence cur)
    (hm : applyOp top a b = some m) (hst : st.calculator_error = false) :
    popApplyWhile cur (b :: a :: vs') (top :: ops) st
      = popApplyWhile cur (m :: vs') ops st := by
  simp only [popApplyWhile]
  rw [if_pos hge, execute_of_applyOp hm hst]
  simp [hst]

/-- One operator token followed by one number token advance the machine by
a successful pop phase, an operator push, and a number push. -/
lemma evalTokens_op_num_step {o : Char} {x : ℚ} {rest : List Token}
    {vs vs1 : List ℚ} {ops ops1 : List Char} {st : ErrState}
    (hpop : popApplyWhile o vs ops st = Except.ok (vs1, ops1, st))
    (hops1 : ops1.length < 49) (hvs1 : vs1.length < 50) :
    evalTokens (Token.op o :: Token.num x :: rest) vs ops st
      = evalTokens rest (x :: vs1) (o :: ops1) st := by
  simp only [evalTokens, hpop]
  rw [if_neg (by simp only [MAX_TOKENS, ge_iff_le, not_le]; omega)]
  rw [if_neg (by simp only [MAX_TOKENS, ge_iff_le, not_le]; omega)]

/-- The correspondence between reachable machine configurations (after a
number token, for alternating input) and the reference evaluator's state
`(acc, pend, cur)`.  With two precedence levels the operator stack holds at
most an additive operator below at most one multiplicative operator. -/
def MachRef (vs : List ℚ) (ops : List Char) (acc : ℚ) (pend : Char) (cur : ℚ) : Prop :=
  (vs = [cur] ∧ ops = [] ∧ acc = 0 ∧ pend = '+') ∨
  ((pend = '+' ∨ pend = '-') ∧ vs = [cur, acc] ∧ ops = [pend]) ∨
  (∃ a b μ, (μ = '*' ∨ μ = '/') ∧ applyOp μ a b = some cur ∧
    vs = [b, a] ∧ ops = [μ] ∧ acc = 0 ∧ pend = '+') ∨
  (∃ b c μ, (pend = '+' ∨ pend = '-') ∧ (μ = '*' ∨ μ = '/') ∧
    applyOp μ b c = some cur ∧ vs = [c, b, acc] ∧ ops = [μ, pend])

lemma MachRef.base (v : ℚ) : MachRef [v] [] 0 '+' v :=
  Or.inl ⟨rfl, rfl, rfl, rfl⟩

lemma MachRef.addP (a b : ℚ) (σ : Char) (hσ : σ = '+' ∨ σ = '-') :
    MachRef [b, a] [σ] a σ b :=
  Or.inr (Or.inl ⟨hσ, rfl, rfl⟩)

lemma MachRef.mulP (a b m : ℚ) (μ : Char) (hμ : μ = '*' ∨ μ = '/')
    (hm : applyOp μ a b = some m) : MachRef [b, a] [μ] 0 '+' m :=
  Or.inr (Or.inr (Or.inl ⟨a, b, μ, hμ, hm, rfl, rfl, rfl, rfl⟩))

lemma MachRef.bothP (a b c m : ℚ) (σ μ : Char) (hσ : σ = '+' ∨ σ = '-')
    (hμ : μ = '*' ∨ μ = '/') (hm : applyOp μ b c = some m) :
    MachRef [c, b, a] [μ, σ] a σ m :=
  Or.inr (Or.inr (Or.inr ⟨b, c, μ, hσ, hμ, hm, rfl, rfl⟩))

/-- Main simulation: from any configuration related to the reference state,
processing the remaining operator/number pairs yields the reference value,
with the error state untouched. -/
lemma evalTokens_pairs (ps : List (Char × ℚ)) :
    ∀ (vs : List ℚ) (ops : List Char) (acc : ℚ) (pend : Char) (cur : ℚ)
      (st : ErrState) (r : ℚ),
      st.calculator_error = false →
      MachRef vs ops acc pend cur →
      (∀ p ∈ ps, p.1 = '+' ∨ p.1 = '-' ∨ p.1 = '*' ∨ p.1 = '/') →
      refLoop acc pend cur ps = some r →
      evalTokens (pairsToks ps) vs ops st = (r, st) := by
  induction ps with
  | nil =>
    intro vs ops acc pend cur st r hst hmr _ href
    rcases hmr with ⟨rfl, rfl, rfl, rfl⟩ | ⟨hσ, rfl, rfl⟩ |
      ⟨a, b, μ, hμ, hm, rfl, rfl, rfl, rfl⟩ | ⟨b, c, μ, hσ, hμ, hm, rfl, rfl⟩
    · simp only [refLoop, applyOp] at href
      simp at href
      simp only [pairsToks, evalTokens, drainRemaining]
      simp [href]
    · simp only [refLoop] at href
      have hex := execute_of_applyOp href hst
      simp only [pairsToks, evalTokens, drainRemaining, hex]
      simp [hst, drainRemaining]
    · simp only [refLoop, applyOp] at href
      simp at href
      have hex := execute_of_applyOp hm hst
      simp only [pairsToks, evalTokens, drainRemaining, hex]
      simp [hst, drainRemaining, href]
    · simp only [refLoop] at href
      have hex1 := execute_of_applyOp hm hst
      have hex2 := execute_of_applyOp href hst
      simp only [pairsToks, evalTokens, drainRemaining, hex1]
      simp [hst, drainRemaining, hex2]
  | cons p ps ih =>
    obtain ⟨o, x⟩ := p
    intro vs ops acc pend cur st r hst hmr hops href
    have ho : o = '+' ∨ o = '-' ∨ o = '*' ∨ o = '/' := by
      simpa using hops (o, x) (List.mem_cons_self _ _)
    have hops' : ∀ q ∈ ps, q.1 = '+' ∨ q.1 = '-' ∨ q.1 = '*' ∨ q.1 = '/' :=
      fun q hq => hops q (List.mem_cons_of_mem _ hq)
    have hoc : (o = '+' ∨ o = '-') ∨ (o = '*' ∨ o = '/') := by tauto
    simp only [pairsToks]
    simp only [refLoop] at href
    rcases hmr with ⟨rfl, rfl, rfl, rfl⟩ | ⟨hσ, rfl, rfl⟩ |
      ⟨a, b, μ, hμ, hm, rfl, rfl, rfl, rfl⟩ | ⟨b, c, μ, hσ, hμ, hm, rfl, rfl⟩
    · rcases hoc with hoadd | homul
      · rw [if_neg (addlike_not_mullike hoadd), applyOp_add, zero_add] at href
        rw [evalTokens_op_num_step (popApply_nil o [cur] st) (by simp) (by simp)]
        exact ih [x, cur] [o] cur o x st r hst (MachRef.addP cur x o hoadd) hops' href
      · rw [if_pos homul] at href
        cases hax : applyOp o cur x with
        | none => rw [hax] at href; cases href
        | some w =>
          rw [hax] at href
          rw [evalTokens_op_num_step (popApply_nil o [cur] st) (by simp) (by simp)]
          exact ih [x, cur] [o] 0 '+' w st r hst
            (MachRef.mulP cur x w o homul hax) hops' href
    · obtain ⟨v1, hv1⟩ := applyOp_addlike hσ acc cur
      rcases hoc with hoadd | homul
      · rw [if_neg (addlike_not_mullike hoadd), hv1] at href
        have hpop : popApplyWhile o [cur, acc] [pend] st = .ok ([v1], [], st) := by
          rw [popApply_pop
            (by simp [prec_of_addlike hσ, prec_of_addlike hoadd]) hv1 hst]
          exact popApply_nil o [v1] st
        rw [evalTokens_op_num_step hpop (by simp) (by simp)]
        exact ih [x, v1] [o] v1 o x st r hst (MachRef.addP v1 x o hoadd) hops' href
      · rw [if_pos homul] at href
        cases hax : applyOp o cur x with
        | none => rw [hax] at href; cases href
        | some w =>
          rw [hax] at href
          have hpop : popApplyWhile o [cur, acc] [pend] st
              = .ok ([cur, acc], [pend], st) :=
            popApply_lower
              (by rw [prec_of_addlike hσ, prec_of_mullike homul]; omega) _ _ _
          rw [evalTokens_op_num_step hpop (by simp) (by simp)]
          exact ih [x, cur, acc] [o, pend] acc pend w st r hst
            (MachRef.bothP acc cur x w pend o hσ homul hax) hops' href
    · have hge : ∀ d : Char, get_precedence μ ≥ get_precedence d := by
        intro d
        rw [prec_of_mullike hμ]
        unfold get_precedence
        split_ifs <;> omega
      have hpop : popApplyWhile o [b, a] [μ] st = .ok ([cur], [], st) := by
        rw [popApply_pop (hge o) hm hst]
        exact popApply_nil o [cur] st
      rcases hoc with hoadd | homul
      · rw [if_neg (addlike_not_mullike hoadd), applyOp_add, zero_add] at href
        rw [evalTokens_op_num_step hpop (by simp) (by simp)]
        exact ih [x, cur] [o] cur o x st r hst (MachRef.addP cur x o hoadd) hops' href
      · rw [if_pos homul] at href
        cases hax : applyOp o cur x with
        | none => rw [hax] at href; cases href
        | some w =>
          rw [hax] at href
          rw [evalTokens_op_num_step hpop (by simp) (by simp)]
          exact ih [x, cur] [o] 0 '+' w st r hst
            (MachRef.mulP cur x w o homul hax) hops' href
    · have hge : ∀ d : Char, get_precedence μ ≥ get_precedence d := by
        intro d
        rw [prec_of_mullike hμ]
        unfold get_precedence
        split_ifs <;> omega
      rcases hoc with hoadd | homul
      · obtain ⟨v2, hv2⟩ := applyOp_addlike hσ acc cur
        rw [if_neg (addlike_not_mullike hoadd), hv2] at href
        have hpop : popApplyWhile o [c, b, acc] [μ, pend] st = .ok ([v2], [], st) := by
          rw [popApply_pop (hge o) hm hst]
          rw [popApply_pop
            (by simp [prec_of_addlike hσ, prec_of_addlike hoadd]) hv2 hst]
          exact popApply_nil o [v2] st
        rw [evalTokens_op_num_step hpop (by simp) (by simp)]
        exact ih [x, v2] [o] v2 o x st r hst (MachRef.addP v2 x o hoadd) hops' href
      · rw [if_pos homul] at href
        cases hax : applyOp o cur x with
        | none => rw [hax] at href; cases href
        | some w =>
          rw [hax] at href
          have hpop : popApplyWhile o [c, b, acc] [μ, pend] st
              = .ok ([cur, acc], [pend], st) := by
            rw [popApply_pop (hge o) hm hst]
            exact popApply_lower
              (by rw [prec_of_addlike hσ, prec_of_mullike homul]; omega) _ _ _
          rw [evalTokens_op_num_step hpop (by simp) (by simp)]
          exact ih [x, cur, acc] [o, pend] acc pend w st r hst
            (MachRef.bothP acc cur x w pend o hσ homul hax) hops' href


lemma ofPairs_eq (a : ℚ) (ps : List (Char × ℚ)) :
    ofPairs a ps = Token.num a :: pairsToks ps := by
  induction ps generalizing a with
  | nil => rfl
  | cons p ps ih =>
    obtain ⟨o, b⟩ := p
    simp [ofPairs, pairsToks, ih]

lemma ofPairs_ne_nil (a : ℚ) (ps : List (Char × ℚ)) : ofPairs a ps ≠ [] := by
  cases ps with
  | nil => simp [ofPairs]
  | cons p ps =>
    obtain ⟨o, b⟩ := p
    simp [ofPairs]

lemma lastIsOp_ofPairs (a : ℚ) (ps : List (Char × ℚ)) :
    lastIsOp (ofPairs a ps) = false := by
  induction ps generalizing a with
  | nil => rfl
  | cons p ps ih =>
    obtain ⟨o, b⟩ := p
    obtain ⟨y, ys, hy⟩ : ∃ y ys, ofPairs b ps = y :: ys := by
      cases hps : ofPairs b ps with
      | nil => exact absurd hps (ofPairs_ne_nil b ps)
      | cons y ys => exact ⟨y, ys, rfl⟩
    have h1 : ofPairs a ((o, b) :: ps) = Token.num a :: Token.op o :: y :: ys := by
      rw [show ofPairs a ((o, b) :: ps) = Token.num a :: Token.op o :: ofPairs b ps
        from rfl, hy]
    rw [h1]
    have h2 : lastIsOp (Token.num a :: Token.op o :: y :: ys) = lastIsOp (y :: ys) := by
      simp [lastIsOp]
    rw [h2, ← hy]
    exact ih b

/-- Reduction of `evaluate_full_expression` to the token scan for a buffer
of at least two tokens not ending in an operator. -/
lemma evaluate_cons_cons (t1 t2 : Token) (rest : List Token) (st : ErrState)
    (hst : st.calculator_error = false)
    (hlast : lastIsOp (t1 :: t2 :: rest) = false) :
    evaluate_full_expression ⟨t1 :: t2 :: rest, st⟩
      = ((evalTokens (t1 :: t2 :: rest) [] [] st).1,
         ⟨t1 :: t2 :: rest, (evalTokens (t1 :: t2 :: rest) [] [] st).2⟩) := by
  simp [evaluate_full_expression, hst, hlast]

end Calc

namespace Calc

/-- Claim C1: on every well-formed alternating token buffer over the four
operators, whenever the reference two-level-precedence left-to-right
semantics has a value, `evaluate_full_expression` returns exactly that
value with the error state untouched; in particular `2 + 3 * 4 = 14`,
`2 * 3 + 4 = 10`, and `10 - 2 + 3 = 11`, with no error set. -/
theorem C1_precedence_evaluation :
    (∀ (a : ℚ) (ps : List (Char × ℚ)) (st : ErrState) (r : ℚ),
      st.calculator_error = false →
      (∀ p ∈ ps, p.1 = '+' ∨ p.1 = '-' ∨ p.1 = '*' ∨ p.1 = '/') →
      refValue a ps = some r →
      evaluate_full_expression ⟨ofPairs a ps, st⟩ = (r, ⟨ofPairs a ps, st⟩)) ∧
    evaluate_full_expression
        ⟨[Token.num 2, Token.op '+', Token.num 3, Token.op '*', Token.num 4], ⟨false, ""⟩⟩
      = (14, ⟨[Token.num 2, Token.op '+', Token.num 3, Token.op '*', Token.num 4],
          ⟨false, ""⟩⟩) ∧
    evaluate_full_expression
        ⟨[Token.num 2, Token.op '*', Token.num 3, Token.op '+', Token.num 4], ⟨false, ""⟩⟩
      = (10, ⟨[Token.num 2, Token.op '*', Token.num 3, Token.op '+', Token.num 4],
          ⟨false, ""⟩⟩) ∧
    evaluate_full_expression
        ⟨[Token.num 10, Token.op '-', Token.num 2, Token.op '+', Token.num 3], ⟨false, ""⟩⟩
      = (11, ⟨[Token.num 10, Token.op '-', Token.num 2, Token.op '+', Token.num 3],
          ⟨false, ""⟩⟩) := by
  refine ⟨?_, ?_, ?_, ?_⟩
  · intro a ps st r hst hops href
    cases ps with
    | nil =>
      simp only [refValue, refLoop, applyOp] at href
      simp at href
      simp [evaluate_full_expression, ofPairs, hst, lastIsOp, href]
    | cons p ps' =>
      obtain ⟨o, b⟩ := p
      rw [show ofPairs a ((o, b) :: ps') = Token.num a :: Token.op o :: ofPairs b ps'
        from rfl]
      rw [evaluate_cons_cons _ _ _ st hst (lastIsOp_ofPairs a ((o, b) :: ps'))]
      have h1 : evalTokens (Token.num a :: Token.op o :: ofPairs b ps') [] [] st
          = evalTokens (pairsToks ((o, b) :: ps')) [a] [] st := by
        rw [ofPairs_eq]
        simp only [evalTokens]
        rw [if_neg (by simp [MAX_TOKENS])]
      rw [h1, evalTokens_pairs ((o, b) :: ps') [a] [] 0 '+' a st r hst
        (MachRef.base a) hops href]
  · simp [evaluate_full_expression, evalTokens, popApplyWhile, drainRemaining,
      execute_apply_operator, get_precedence, lastIsOp, MAX_TOKENS]
    norm_num
  · simp [evaluate_full_expression, evalTokens, popApplyWhile, drainRemaining,
      execute_apply_operator, get_precedence, lastIsOp, MAX_TOKENS]
    norm_num
  · simp [evaluate_full_expression, evalTokens, popApplyWhile, drainRemaining,
      execute_apply_operator, get_precedence, lastIsOp, MAX_TOKENS]
    norm_num

/-- Witness for C1's universal part at the buffer `1 + 2`. -/
theorem C1_precedence_evaluation_witness :
    evaluate_full_expression ⟨ofPairs 1 [('+', 2)], ⟨false, ""⟩⟩
      = (3, ⟨ofPairs 1 [('+', 2)], ⟨false, ""⟩⟩) :=
  C1_precedence_evaluation.1 1 [('+', 2)] ⟨false, ""⟩ 3 rfl (by decide)
    (by simp [refValue, refLoop, applyOp]; norm_num)

/-- Counterexample to claim C8 as stated.  First: with no digits pending
and the buffer ending in an operator (the reachable such state, with
`last_key_was_operator` set), pressing `*` raises no Syntax fault — the
code's check requires `!last_key_was_operator` — and the `*` is pushed.
Second: a leading `+` on the empty buffer is pushed onto the token buffer,
not accepted as a no-op. -/
theorem C8_counterexample :
    (process_operator_key 12
        ⟨[Token.num 5, Token.op '+'], ⟨false, ""⟩, [], false, false, true⟩).err.calculator_error
      = false ∧
    (process_operator_key 12
        ⟨[Token.num 5, Token.op '+'], ⟨false, ""⟩, [], false, false, true⟩).expr
      = [Token.num 5, Token.op '+', Token.op '*'] ∧
    (process_operator_key 10
        ⟨[], ⟨false, ""⟩, [], false, false, false⟩).err.calculator_error = false ∧
    (process_operator_key 10
        ⟨[], ⟨false, ""⟩, [], false, false, false⟩).expr = [Token.op '+'] := by
  decide

/-- Claim C8 amended: in the Entering phase with no digits pending and no
active error: on an empty buffer, `*` and `/` raise "Err: Syntax" and leave
the buffer unchanged, `+` raises no error but pushes the `+` operator token
(it is not a buffer no-op), and `-` starts a pending negative entry; when
the buffer ends in an operator and the preceding key was an operator push
(the only reachable such state), `+`, `*` and `/` are pushed without any
fault, and `-` again starts a pending negative entry — the Syntax check on
an operator-ended buffer fires only when `last_key_was_operator` is false. -/
theorem C8_operator_key_amended (s : LoopState)
    (herr : s.err.calculator_error = false) (hnum : s.current_num = []) :
    (s.expr = [] →
      (process_operator_key 12 s).err = ⟨true, msgSyntax⟩ ∧
      (process_operator_key 12 s).expr = s.expr ∧
      (process_operator_key 13 s).err = ⟨true, msgSyntax⟩ ∧
      (process_operator_key 13 s).expr = s.expr ∧
      (process_operator_key 10 s).err = s.err ∧
      (process_operator_key 10 s).expr = s.expr ++ [Token.op '+'] ∧
      process_operator_key 11 s
        = { s with current_num := ['-'], last_key_was_operator := false }) ∧
    (lastIsOp s.expr = true → s.last_key_was_operator = true →
      s.expr.length < MAX_TOKENS →
      ∀ k, k = 10 ∨ k = 12 ∨ k = 13 →
        (process_operator_key k s).err = s.err ∧
        (process_operator_key k s).expr = s.expr ++ [Token.op (op_char_map k)]) ∧
    (s.last_key_was_operator = true →
      process_operator_key 11 s
        = { s with current_num := ['-'], last_key_was_operator := false }) := by
  refine ⟨?_, ?_, ?_⟩
  · intro hexpr
    refine ⟨?_, ?_, ?_, ?_, ?_, ?_, ?_⟩ <;>
      simp [process_operator_key, op_char_map, hnum, hexpr, herr,
        push_operator_to_expr, set_error_eq _ _ herr msgSyntax_take, MAX_TOKENS,
        LCD_LINE_LEN]
  · intro hlast hlk hlen k hk
    have hne : s.expr ≠ [] := by
      intro h
      rw [h] at hlast
      simp [lastIsOp] at hlast
    have hlen0 : s.expr.length ≠ 0 := by simpa [List.length_eq_zero] using hne
    have hcap : ¬MAX_TOKENS ≤ s.expr.length := not_le.mpr hlen
    rcases hk with rfl | rfl | rfl <;>
      constructor <;>
        simp [process_operator_key, op_char_map, hnum, herr, hlast, hlk, hlen0,
          push_operator_to_expr, hcap]
  · intro hlk
    simp [process_operator_key, op_char_map, hnum, hlk, LCD_LINE_LEN]

/-- Witness for C8's amended claim: `*` after a trailing operator with
`last_key_was_operator` set is pushed without error. -/
theorem C8_operator_key_amended_witness :
    (process_operator_key 12
        ⟨[Token.num 5, Token.op '+'], ⟨false, ""⟩, [], false, false, true⟩).expr
      = [Token.num 5, Token.op '+'] ++ [Token.op (op_char_map 12)] :=
  ((C8_operator_key_amended
      ⟨[Token.num 5, Token.op '+'], ⟨false, ""⟩, [], false, false, true⟩ rfl rfl).2.1
    (by decide) rfl (by decide) 12 (Or.inr (Or.inl rfl))).2

/-- Counterexample to claim C9 as stated: a Syntax fault raised by an
operator key in the Entering phase surfaces within the same loop iteration
— the post-processing block of the same key-cycle records the error and
enters the error-shown state (`calculation_has_ended`), not the following
key observation. -/
theorem C9_error_cycle_counterexample :
    (loop_step 12 ⟨[], ⟨false, ""⟩, [], false, false, false⟩).err.calculator_error = true ∧
    (loop_step 12 ⟨[], ⟨false, ""⟩, [], false, false, false⟩).calculation_has_ended = true := by
  decide

/-- Claim C9 amended: a fault raised while processing a key in the Entering
phase moves the machine to the error-shown state within the *same* loop
iteration (via the post-processing block, or within the equals handler); no
key-cycle lag occurs.  The deferred-display guard at the top of the loop
only applies to an error already pending when an iteration starts. -/
theorem C9_same_cycle_error (s : LoopState) (k : Nat)
    (hend : s.calculation_has_ended = false) (herr : s.err.calculator_error = false)
    (hfault : (loop_step k s).err.calculator_error = true) :
    (loop_step k s).calculation_has_ended = true := by
  by_cases hk : k = KEY_NONE
  · rw [hk] at hfault
    have hid : loop_step KEY_NONE s = s := by
      simp [loop_step, hend, herr]
    rw [hid] at hfault
    rw [herr] at hfault
    cases hfault
  · have hstep : loop_step k s = loop_tail (process_valid_key k s) := by
      simp [loop_step, hend, herr, hk]
    rw [hstep] at hfault ⊢
    unfold loop_tail at hfault ⊢
    split_ifs at hfault ⊢ <;> simp_all

/-- Witness for C9's amended claim at the counterexample input. -/
theorem C9_same_cycle_error_witness :
    (loop_step 12 ⟨[], ⟨false, ""⟩, [], false, false, false⟩).calculation_has_ended = true :=
  C9_same_cycle_error ⟨[], ⟨false, ""⟩, [], false, false, false⟩ 12 rfl rfl (by decide)

end Calc
